import Mathlib

/-!
Verification of the Consensus module (Consensus/Consensus.cpp).

The definitions below are a shallow embedding of the pileup-accumulation and
consensus-decision engine: per-position base-count tables, the accumulation
of alignment records into those tables, the per-position majority vote
(selectBase), the per-contig acceptance decision, and the contig registration
pass.  C `unsigned`/`int` values are modelled as `Nat`/`Int`; fallible code
(assert / exit) returns `Option`.  Helper functions that live outside the
provided source (Common/Aligner.h utilities) are modelled from the
specification and carry a doc comment saying so.
-/

namespace Consensus

/-! ## Character helpers (ASCII, C locale, as used by `<cctype>`) -/

/-- Model of C `isdigit` for the ASCII range. -/
def isDigitChar (c : Char) : Bool :=
  48 ≤ c.toNat && c.toNat ≤ 57

/-- Model of C `isalpha` for the ASCII range. -/
def isAlphaChar (c : Char) : Bool :=
  (65 ≤ c.toNat && c.toNat ≤ 90) || (97 ≤ c.toNat && c.toNat ≤ 122)

/-- Model of C `islower` for the ASCII range. -/
def isLowerChar (c : Char) : Bool :=
  97 ≤ c.toNat && c.toNat ≤ 122

/-- Model of C `tolower` for the ASCII range. -/
def toLowerChar (c : Char) : Char :=
  if 65 ≤ c.toNat && c.toNat ≤ 90 then Char.ofNat (c.toNat + 32) else c

/-! ## Base encoding

`baseToCode`, `codeToBase`, `colourToNucleotideSpace` and `reverseComplement`
live in the Common/ part of the repository, which is not under src/; they are
modelled from the specification (section 4.1). -/

/-- Modelled from the spec: `baseToCode` (Common/, not in src/) maps
{A,C,G,T} case-insensitively to the dense codes 0..3 in ascending
A < C < G < T order; its value on other characters is unspecified by the
spec (callers guarantee only these four appear where counting uses it), so
we arbitrarily return 0 there. -/
def baseToCode (c : Char) : Fin 4 :=
  if c = 'A' || c = 'a' then 0
  else if c = 'C' || c = 'c' then 1
  else if c = 'G' || c = 'g' then 2
  else if c = 'T' || c = 't' then 3
  else 0

/-- Modelled from the spec: `codeToBase` (Common/, not in src/) is the inverse
mapping of `baseToCode`, always uppercase.  Out-of-range codes never occur in
the source; we return 'N' there. -/
def codeToBase (n : Nat) : Char :=
  if n = 0 then 'A'
  else if n = 1 then 'C'
  else if n = 2 then 'G'
  else if n = 3 then 'T'
  else 'N'

/-- Modelled from the spec: Watson-Crick complement of one nucleotide,
used by `reverseComplement` (Common/, not in src/). -/
def complementChar (c : Char) : Char :=
  if c = 'A' then 'T' else if c = 'T' then 'A'
  else if c = 'C' then 'G' else if c = 'G' then 'C'
  else if c = 'a' then 't' else if c = 't' then 'a'
  else if c = 'c' then 'g' else if c = 'g' then 'c'
  else c

/-- Modelled from the spec: `reverseComplement` (Common/, not in src/)
reverses the read and complements every base. -/
def reverseComplement (s : List Char) : List Char :=
  (s.map complementChar).reverse

/-- Modelled from the spec: single-step colour-space decode
`colourToNucleotideSpace(anchorBase, colourDigit)` (Common/, not in src/):
each colour digit 0-3 denotes the dinucleotide transition from the previous
decoded base; the standard encoding is the XOR of the two 2-bit base codes. -/
def colourToNucleotideSpace (anchor : Char) (digit : Char) : Char :=
  if 48 ≤ digit.toNat && digit.toNat ≤ 51 then
    codeToBase ((baseToCode anchor).val ^^^ (digit.toNat - 48))
  else 'N'

/-! ## Base-count tables -/

/-- Per-position vote table: four counters indexed by base code 0..3,
`unsigned count[4]` in the source (A, C, G, T in that order). -/
structure BaseCount where
  cA : Nat
  cC : Nat
  cG : Nat
  cT : Nat
deriving DecidableEq, Repr

/-- The all-zero table produced by the `BaseCount` default constructor. -/
def BaseCount.zero : BaseCount := ⟨0, 0, 0, 0⟩

/-- Read `count[x]` of a table. -/
def BaseCount.get : BaseCount → Fin 4 → Nat
  | b, ⟨0, _⟩ => b.cA
  | b, ⟨1, _⟩ => b.cC
  | b, ⟨2, _⟩ => b.cG
  | b, ⟨3, _⟩ => b.cT

/-- The increment `count[x]++` of the inner accumulation loop. -/
def BaseCount.inc : BaseCount → Fin 4 → BaseCount
  | b, ⟨0, _⟩ => { b with cA := b.cA + 1 }
  | b, ⟨1, _⟩ => { b with cC := b.cC + 1 }
  | b, ⟨2, _⟩ => { b with cG := b.cG + 1 }
  | b, ⟨3, _⟩ => { b with cT := b.cT + 1 }

/-- Total read depth at the position (`BaseCount::sum`). -/
def BaseCount.sum (b : BaseCount) : Nat := b.cA + b.cC + b.cG + b.cT

/-! ## The per-position vote (`selectBase`, Consensus.cpp lines 254-274) -/

/-- One iteration of the `selectBase` scanning loop.  The state is the
triple (bestBase, bestCount, secondCount), with bestBase an `Int` because
the source initialises it to -1. -/
def selectStep (bc : BaseCount) (st : Int × Nat × Nat) (x : Fin 4) :
    Int × Nat × Nat :=
  if bc.get x > st.2.1 then ((x.val : Int), bc.get x, st.2.1) else st

/-- The epilogue of `selectBase`: add the final bestCount and secondCount
to the running totals and map the winning code to a character ('N' when
bestBase is still -1). -/
def selectFinish (sumBest sumSecond : Nat) (r : Int × Nat × Nat) :
    Char × Nat × Nat :=
  (if r.1 = -1 then 'N' else codeToBase r.1.toNat,
   sumBest + r.2.1, sumSecond + r.2.2)

/-- The `selectBase` function of the source: scan the four counters in
ascending code order keeping the running best and the best value seen
before the last improvement, add both to the running totals, and return
'N' when no counter ever exceeded zero. -/
def selectBase (bc : BaseCount) (sumBest sumSecond : Nat) :
    Char × Nat × Nat :=
  selectFinish sumBest sumSecond
    ((List.finRange 4).foldl (selectStep bc) (-1, 0, 0))

/-! ## Specification-side definitions for the `selectBase` claims -/

/-- Written from the spec's words for claim C1: the value of the counter
with the second-highest tally among the four counters, i.e. the second
element of the tallies sorted in non-increasing order (remove one occurrence
of the maximum, take the maximum of the remaining three). -/
def secondHighestTally (bc : BaseCount) : Nat :=
  let m := Nat.max (Nat.max bc.cA bc.cC) (Nat.max bc.cG bc.cT)
  ([bc.cA, bc.cC, bc.cG, bc.cT].erase m).foldl Nat.max 0

/-- The code of the first counter attaining the maximum tally: the winner
under the "strictly greatest count, ties to lowest code" rule of the spec.
The conditions test, in ascending code order, whether the counter is at
least as large as every later counter (which makes it the first argmax). -/
def winnerIdx (bc : BaseCount) : Nat :=
  if bc.cC ≤ bc.cA ∧ bc.cG ≤ bc.cA ∧ bc.cT ≤ bc.cA then 0
  else if bc.cG ≤ bc.cC ∧ bc.cT ≤ bc.cC then 1
  else if bc.cT ≤ bc.cG then 2
  else 3

/-- The tally of the first counter attaining the maximum, i.e. the maximum
tally itself. -/
def bestTally (bc : BaseCount) : Nat :=
  if bc.cC ≤ bc.cA ∧ bc.cG ≤ bc.cA ∧ bc.cT ≤ bc.cA then bc.cA
  else if bc.cG ≤ bc.cC ∧ bc.cT ≤ bc.cC then bc.cC
  else if bc.cT ≤ bc.cG then bc.cG
  else bc.cT

/-- The largest tally among the counters strictly preceding the first
counter that attains the maximum (0 when the maximum is attained by the
first counter): the quantity the source's `secondCount` actually computes. -/
def runnerUpBeforeMax (bc : BaseCount) : Nat :=
  if bc.cC ≤ bc.cA ∧ bc.cG ≤ bc.cA ∧ bc.cT ≤ bc.cA then 0
  else if bc.cG ≤ bc.cC ∧ bc.cT ≤ bc.cC then bc.cA
  else if bc.cT ≤ bc.cG then (if bc.cA ≤ bc.cC then bc.cC else bc.cA)
  else (if bc.cA ≤ bc.cC then (if bc.cC ≤ bc.cG then bc.cG else bc.cC)
        else (if bc.cA ≤ bc.cG then bc.cG else bc.cA))

/-! ## Contigs, alignments, and the accumulation pass
(`buildBaseQuality`, Consensus.cpp lines 163-251) -/

/-- One alignment record (the `Alignment` type of Aligner.h): contig id,
contig start offset, read start offset, aligned length, total read length,
and orientation flag. -/
structure Alignment where
  contig : String
  contig_start_pos : Int
  read_start_pos : Int
  align_length : Int
  read_length : Int
  isRC : Bool
deriving DecidableEq, Repr

/-- Modelled from the spec: `Alignment::flipQuery` (Aligner.h, not in src/)
mirrors the placement onto the reverse-complemented read: the read start
offset becomes `read_length - (read_start_pos + align_length)` and the
orientation flag is toggled. -/
def Alignment.flipQuery (a : Alignment) : Alignment :=
  { a with
    read_start_pos := a.read_length - (a.read_start_pos + a.align_length),
    isRC := !a.isRC }

/-- The alignment actually used for one placement (lines 200-206): the
placement itself for a forward alignment, its mirrored version for a
reverse-complement alignment. -/
def effAlign (al : Alignment) : Alignment :=
  if al.isRC then al.flipQuery else al

/-- Per-contig state (the `ContigCount` struct of the source): draft
sequence, coverage, comment, and the pileup table. -/
structure ContigCount where
  seq : List Char
  coverage : Nat
  comment : String
  counts : List BaseCount
deriving DecidableEq, Repr

/-- Look up a contig id in the registry (`g_contigs.find`); the registry is
modelled as an association list, first match wins (hash-map keys are
unique). -/
def findEntry : List (String × ContigCount) → String → Option ContigCount
  | [], _ => none
  | (k, v) :: rest, cid => if k = cid then some v else findEntry rest cid

/-- Replace the pileup table of the first entry with the given id
(in-place mutation of the mapped value in the source). -/
def setCounts : List (String × ContigCount) → String → List BaseCount →
    List (String × ContigCount)
  | [], _, _ => []
  | (k, v) :: rest, cid, cnts =>
    if k = cid then (k, { v with counts := cnts }) :: rest
    else (k, v) :: setCounts rest cid cnts

/-- Increment counter `b` of position `n` of a pileup table
(`countsVec[loc].count[base]++`); positions past the end are unchanged
(the source asserts in-bounds before every increment). -/
def incrList : List BaseCount → Nat → Fin 4 → List BaseCount
  | [], _, _ => []
  | c :: cs, 0, b => c.inc b :: cs
  | c :: cs, Nat.succ n, b => c :: incrList cs n b

/-- The list of `Int` indices `[lo, hi)` traversed by the inner `for` loop
(empty when `hi ≤ lo`). -/
def intRange (lo hi : Int) : List Int :=
  (List.range (hi - lo).toNat).map (fun (k : Nat) => lo + (k : Int))

/-- Read-index window of one alignment (lines 214-226).  Nucleotide mode
clips the read to the part overlapping the table:
`read_min = max(read_start - contig_start, 0)`,
`read_max = min(read_start + tableLength - contig_start, read_length)`.
Colour-to-nucleotide mode takes the aligned stretch plus one trailing
position: `read_min = read_start`, `read_max = read_min + align_length + 1`.
The C intermediate `read_start + countsVec.size() - contig_start` is
computed in `size_t` and converted back to `int`; we model its mathematical
value, which agrees with the source whenever the window is non-empty. -/
def readWindow (csToNt : Bool) (size : Int) (a : Alignment) : Int × Int :=
  if !csToNt then
    (max (a.read_start_pos - a.contig_start_pos) 0,
     min (a.read_start_pos + size - a.contig_start_pos) a.read_length)
  else
    (a.read_start_pos, a.read_start_pos + a.align_length + 1)

/-- The inner pile-up loop (lines 239-248): for each read index `x`, the
destination is `loc = contig_start - read_start + x`; the source computes
`loc` as `unsigned`, so a negative value wraps to a huge one and the
assertion `loc < countsVec.size()` fails for it as well — hence the model
aborts unless `0 ≤ loc < size`.  On success the counter of the base code of
`s[x]` at `loc` is incremented. -/
def pileLoop (s : List Char) (cs rs : Int) :
    List BaseCount → List Int → Option (List BaseCount)
  | counts, [] => some counts
  | counts, x :: xs =>
    if 0 ≤ cs - rs + x ∧ cs - rs + x < (counts.length : Int) then
      pileLoop s cs rs
        (incrList counts (cs - rs + x).toNat (baseToCode (s.getD x.toNat 'N')))
        xs
    else none

/-- Processing of one alignment placement inside the per-read loop of
`buildBaseQuality` (lines 196-249).  Unknown contig ids are skipped; the
three assertions of lines 233-236 and the per-position bounds assertion
become `none` (the fatal abort).  The `cerr` logging of lines 228-230 has
no observable effect on the state and is not modelled.  The source reads
the base code from `s[x]` through `baseToCode` in both branches of the
`opt::colourSpace` test of lines 240-244 (the two branches are
identical). -/
def processAlign (csToNt : Bool) (contigs : List (String × ContigCount))
    (seq : List Char) (al : Alignment) :
    Option (List (String × ContigCount)) :=
  let s := if al.isRC then reverseComplement seq else seq
  let a := effAlign al
  match findEntry contigs a.contig with
  | none => some contigs
  | some contig =>
    let size : Int := contig.counts.length
    let w := readWindow csToNt size a
    if size ≥ a.contig_start_pos - a.read_start_pos + w.2 - 1 ∧
        w.2 ≤ (seq.length : Int) ∧ 0 ≤ w.1 then
      (pileLoop s a.contig_start_pos a.read_start_pos contig.counts
        (intRange w.1 w.2)).map (setCounts contigs a.contig)
    else none

/-- One read with its alignment placements, as handed to the per-line loop
of `buildBaseQuality` after `readAlignment` parsing; `seq` is the parsed
read sequence, already converted from colour space to nucleotide space by
`readAlignment` (lines 158-160) when applicable. -/
structure Read where
  readID : String
  seq : List Char
  alignments : List Alignment
deriving DecidableEq, Repr

/-- Fold every placement of a read into the registry, aborting on the
first failed assertion. -/
def accumAligns (csToNt : Bool) (contigs : List (String × ContigCount))
    (seq : List Char) (als : List Alignment) :
    Option (List (String × ContigCount)) :=
  als.foldl (fun acc al => acc.bind (fun cs2 => processAlign csToNt cs2 seq al))
    (some contigs)

/-- Processing of one input line of `buildBaseQuality` (lines 171-250): in
colour-space-to-nucleotide mode the read is skipped (lines 182-193) unless
at least one placement has read start offset exactly 0; otherwise every
placement is folded into the pileup. -/
def processRead (csToNt : Bool) (contigs : List (String × ContigCount))
    (r : Read) : Option (List (String × ContigCount)) :=
  if csToNt && !(r.alignments.any (fun al => al.read_start_pos == 0)) then
    some contigs
  else accumAligns csToNt contigs r.seq r.alignments

/-- The whole accumulation pass: fold every read of the input stream into
the contig registry. -/
def accumulate (csToNt : Bool) (contigs : List (String × ContigCount))
    (reads : List Read) : Option (List (String × ContigCount)) :=
  reads.foldl (fun acc r => acc.bind (fun cs2 => processRead csToNt cs2 r))
    (some contigs)

/-- Written from the spec's words for claim C2: process the read using only
the placements anchored at read offset 0, discarding all other placements
of the read. -/
def processReadOnlyAnchored (csToNt : Bool)
    (contigs : List (String × ContigCount)) (r : Read) :
    Option (List (String × ContigCount)) :=
  accumAligns csToNt contigs r.seq
    (r.alignments.filter (fun al => al.read_start_pos == 0))

/-! ## Contig registration (`readContigs`, Consensus.cpp lines 99-141) -/

/-- One parsed record of the contig source: identifier, sequence, and the
coverage/comment fields extracted from the FASTA comment (the leading
length field of the comment is parsed into a local and discarded by the
source). -/
structure FastaRecord where
  id : String
  seq : List Char
  coverage : Nat
  comment : String
deriving DecidableEq, Repr

/-- State threaded through `readContigs`: the registry plus the globals the
loop reads and writes (`opt::colourSpace`, `opt::csToNt`) and the running
record count. -/
structure RCState where
  contigs : List (String × ContigCount)
  count : Nat
  colourSpace : Bool
  csToNt : Bool
deriving DecidableEq, Repr

/-- Insert or overwrite a registry entry (`g_contigs[rec.id]` followed by
assignment of every field). -/
def insertContig : List (String × ContigCount) → String → ContigCount →
    List (String × ContigCount)
  | [], cid, cc => [(cid, cc)]
  | (k, v) :: rest, cid, cc =>
    if k = cid then (k, cc) :: rest else (k, v) :: insertContig rest cid cc

/-- One iteration of the `readContigs` loop (lines 106-137).  The pileup
table is sized with the CURRENT value of `opt::csToNt` (line 117) and only
afterwards, for the first record, colour-space input is detected and
`opt::csToNt` updated (lines 120-129); `exit(EXIT_FAILURE)` on
nucleotide input with colour-space output requested, and the assertions of
lines 131-134, become `none`. -/
def readContigStep (outputCS : Bool) (st : RCState) (rec : FastaRecord) :
    Option RCState :=
  let numBases := if st.csToNt then rec.seq.length + 1 else rec.seq.length
  let cc : ContigCount :=
    { seq := rec.seq, coverage := rec.coverage, comment := rec.comment,
      counts := List.replicate numBases BaseCount.zero }
  let contigs2 := insertContig st.contigs rec.id cc
  if st.count = 0 then
    let colourSpace := isDigitChar (rec.seq.headD (Char.ofNat 0))
    if !outputCS then
      some { contigs := contigs2, count := st.count + 1,
             colourSpace := colourSpace, csToNt := colourSpace }
    else if !colourSpace then none
    else
      some { contigs := contigs2, count := st.count + 1,
             colourSpace := colourSpace, csToNt := st.csToNt }
  else
    if (if st.colourSpace then isDigitChar (rec.seq.headD (Char.ofNat 0))
        else isAlphaChar (rec.seq.headD (Char.ofNat 0))) then
      some { st with contigs := contigs2, count := st.count + 1 }
    else none

/-- The whole registration pass.  The globals start out false
(`opt::csToNt` and `opt::colourSpace` are zero-initialised statics; no
command-line option sets them) and the final `assert(count > 0)` becomes
`none` on an empty contig source. -/
def readContigs (outputCS : Bool) (recs : List FastaRecord) :
    Option RCState :=
  (recs.foldl (fun acc rec => acc.bind (fun st => readContigStep outputCS st rec))
      (some { contigs := [], count := 0, colourSpace := false, csToNt := false })).bind
    (fun st => if st.count = 0 then none else some st)

/-! ## The consensus decision (`consensus`, Consensus.cpp lines 344-416) -/

/-- Upper-case determined bases, the characters `find_first_of("ACGT")`
searches for (line 375). -/
def isACGTupper (c : Char) : Bool :=
  c == 'A' || c == 'C' || c == 'G' || c == 'T'

/-- The per-position calling loop (lines 363-370): run `selectBase` on each
position, thread the running agreement totals through, and give the called
character the letter case of the corresponding draft character
(`outSeq[x] = islower(contig.seq[x]) ? tolower(c) : c`; reading
`std::string` at its size yields the null character, which is not lower
case). -/
def callLoop : List BaseCount → List Char → Nat → Nat →
    List Char × Nat × Nat
  | [], _, sb, ss => ([], sb, ss)
  | cnt :: cnts, refs, sb, ss =>
    match selectBase cnt sb ss with
    | (ch, sb2, ss2) =>
      let oc := if isLowerChar (refs.headD (Char.ofNat 0)) then toLowerChar ch
                else ch
      match callLoop cnts (refs.drop 1) sb2 ss2 with
      | (rest, sbf, ssf) => (oc :: rest, sbf, ssf)

/-- The significand of the IEEE binary32 value of the C expression
`sumBest / (float)(sumBest + sumSecond)` (line 378), scaled by 2^24: the
quotient `num/den` is rounded to the nearest multiple of 2^-24, halves to
even (the IEEE default).  `q` and `r` are quotient and remainder of
`num * 2^24` by `den`, so the fractional part being below, above or at one
half is `2r < den`, `2r > den`, `2r = den`.  The model is exact for the
values this program produces: the operands convert to `float` exactly
(counts below 2^24) and the quotient lies in [1/2, 1] — `selectBase` never
adds more to the second total than to the best total — which is covered by
the single binade [1/2, 1) of exponent -1 together with the exactly
representable 1. -/
def roundScaled (num den : Nat) : Nat :=
  if 2 * (num * 2 ^ 24 % den) < den then num * 2 ^ 24 / den
  else if 2 * (num * 2 ^ 24 % den) > den then num * 2 ^ 24 / den + 1
  else if num * 2 ^ 24 / den % 2 = 0 then num * 2 ^ 24 / den
  else num * 2 ^ 24 / den + 1

/-- The acceptance test of lines 378-379: reject when the percent agreement
is NaN (zero total, `isnan`) or compares below the double literal `.9`.
The binary32 value `percentAgreement` converts to double exactly, and no
binary32 value lies strictly between the rational 9/10 and the double
0.90000000000000002220…, so the source's comparison is equivalent to
`roundScaled sumBest (sumBest+sumSecond) / 2^24 < 9/10`, i.e. to
`10 * roundScaled … < 9 * 2^24`. -/
def acceptAgreement (sumBest sumSecond : Nat) : Bool :=
  if sumBest + sumSecond = 0 then false
  else if 10 * roundScaled sumBest (sumBest + sumSecond) < 9 * 2 ^ 24 then
    false
  else true

/-- First index holding 'N' (`find_first_of('N')`). -/
def findIdxN (l : List Char) : Option Nat := l.findIdx? (· == 'N')

/-- Last index holding 'N' (`find_last_of('N')`). -/
def findLastN (l : List Char) : Option Nat :=
  (l.reverse.findIdx? (· == 'N')).map (fun k => l.length - 1 - k)

/-- First index holding a determined base (`find_first_of("ACGT")`). -/
def findFirstACGT (l : List Char) : Option Nat := l.findIdx? isACGTupper

/-- Last index holding a determined base (`find_last_of("ACGT")`). -/
def findLastACGT (l : List Char) : Option Nat :=
  (l.reverse.findIdx? isACGTupper).map (fun k => l.length - 1 - k)

/-- The `while` loop of `fixUnknown` (lines 302-308): replace the leftmost
'N' by the decode of its left neighbour with the draft's colour digit at
that offset, until no 'N' remains.  The source recomputes
`find_first_of('N')` each time; its intended termination measure — one 'N'
resolved per iteration — is the fuel (if a replacement produced 'N' again
the source would not terminate; the model stops when the fuel runs out). -/
def repairLoop (csSeq : List Char) : Nat → List Char → List Char
  | 0, nt => nt
  | Nat.succ fuel, nt =>
    match findIdxN nt with
    | none => nt
    | some i =>
      repairLoop csSeq fuel
        (nt.set i (colourToNucleotideSpace (nt.getD (i - 1) 'N')
          (csSeq.getD (i - 1) 'N')))

/-- `fixUnknown` (lines 277-309): trim undetermined runs off the two ends
when an 'N' sits at either terminal (`substr` from the first to the last
determined base; the source would throw if no determined base existed, but
it is only called on sequences containing one), then repair the remaining
interior 'N' positions left to right. -/
def fixUnknown (nt0 csSeq : List Char) : List Char :=
  let nt :=
    if findIdxN nt0 == some 0 || findLastN nt0 == some (nt0.length - 1) then
      (nt0.drop ((findFirstACGT nt0).getD 0)).take
        ((findLastACGT nt0).getD 0 - (findFirstACGT nt0).getD 0 + 1)
    else nt0
  repairLoop csSeq (nt.countP (· == 'N')) nt

/-- The observable outcome of `consensus` for one contig: whether
`WriteSequence` ran, whether `fixUnknown` ran, which of the two warnings
was printed, and the sequence written. -/
structure ContigOutcome where
  written : Bool
  repaired : Bool
  lowAgreementWarned : Bool
  omittedWarned : Bool
  output : Option (List Char)
deriving DecidableEq, Repr

/-- The per-contig body of `consensus` (lines 353-415).  A contig whose
called string has no upper-case A/C/G/T only warns (at verbosity ≥ 1) that
it was omitted; otherwise the agreement test decides: on failure the
contig is counted ignored and — in colour-space mode only — a warning is
printed at verbosity ≥ 1, and in neither mode is anything written or
repaired; on success colour-space contigs are repaired by `fixUnknown` and
the result is written. -/
def consensusContig (csToNt : Bool) (verbose : Nat) (contig : ContigCount) :
    ContigOutcome :=
  match callLoop contig.counts contig.seq 0 0 with
  | (outSeq, sumBest, sumSecond) =>
    if outSeq.any isACGTupper then
      if acceptAgreement sumBest sumSecond then
        { written := true, repaired := csToNt,
          lowAgreementWarned := false, omittedWarned := false,
          output := some (if csToNt then fixUnknown outSeq contig.seq
                          else outSeq) }
      else
        { written := false, repaired := false,
          lowAgreementWarned := csToNt && decide (verbose > 0),
          omittedWarned := false, output := none }
    else
      { written := false, repaired := false, lowAgreementWarned := false,
        omittedWarned := decide (verbose > 0), output := none }

/-! ## Shape-level plans for the order-independence claim -/

/-- A single pile-up increment event: contig id, table position, base
code. -/
abbrev Event := String × Nat × Fin 4

/-- Apply one increment event to the registry (first matching entry, as
`findEntry` finds it). -/
def applyEvent : List (String × ContigCount) → Event →
    List (String × ContigCount)
  | [], _ => []
  | (k, v) :: rest, e =>
    if k = e.1 then
      (k, { v with counts := incrList v.counts e.2.1 e.2.2 }) :: rest
    else (k, v) :: applyEvent rest e

/-- The shape of the registry: contig ids with their table lengths — the
only data the accumulation aborts and destination offsets depend on. -/
def shape (contigs : List (String × ContigCount)) : List (String × Nat) :=
  contigs.map (fun p => (p.1, p.2.counts.length))

/-- Table length of a contig id in a shape. -/
def findSize : List (String × Nat) → String → Option Nat
  | [], _ => none
  | (k, n) :: rest, cid => if k = cid then some n else findSize rest cid

/-- Shape-level plan of the inner pile-up loop: the (position, base code)
increments it will perform, or `none` at a failing bounds check. -/
def planLoop (cs rs : Int) (size : Nat) (s : List Char) :
    List Int → Option (List (Nat × Fin 4))
  | [] => some []
  | x :: xs =>
    if 0 ≤ cs - rs + x ∧ cs - rs + x < (size : Int) then
      (planLoop cs rs size s xs).map
        (fun es => ((cs - rs + x).toNat, baseToCode (s.getD x.toNat 'N')) :: es)
    else none

/-- Shape-level plan of one alignment placement: the events `processAlign`
will apply, `none` exactly when it aborts. -/
def planAlign (csToNt : Bool) (sh : List (String × Nat)) (seq : List Char)
    (al : Alignment) : Option (List Event) :=
  let s := if al.isRC then reverseComplement seq else seq
  let a := effAlign al
  match findSize sh a.contig with
  | none => some []
  | some size =>
    let w := readWindow csToNt (size : Int) a
    if (size : Int) ≥ a.contig_start_pos - a.read_start_pos + w.2 - 1 ∧
        w.2 ≤ (seq.length : Int) ∧ 0 ≤ w.1 then
      (planLoop a.contig_start_pos a.read_start_pos size s
        (intRange w.1 w.2)).map
        (List.map (fun e => (a.contig, e.1, e.2)))
    else none

/-- Shape-level plan of a list of placements (concatenated in order). -/
def planAligns (csToNt : Bool) (sh : List (String × Nat)) (seq : List Char) :
    List Alignment → Option (List Event)
  | [] => some []
  | al :: als =>
    (planAlign csToNt sh seq al).bind
      (fun e1 => (planAligns csToNt sh seq als).map (fun e2 => e1 ++ e2))

/-- Shape-level plan of one read. -/
def planRead (csToNt : Bool) (sh : List (String × Nat)) (r : Read) :
    Option (List Event) :=
  if csToNt && !(r.alignments.any (fun al => al.read_start_pos == 0)) then
    some []
  else planAligns csToNt sh r.seq r.alignments

/-- Apply a list of (position, base code) increments to one table. -/
def applyIncs (counts : List BaseCount) (es : List (Nat × Fin 4)) :
    List BaseCount :=
  es.foldl (fun cnts e => incrList cnts e.1 e.2) counts


theorem BaseCount.get_zero (b : BaseCount) : b.get 0 = b.cA := rfl

theorem BaseCount.get_one (b : BaseCount) : b.get 1 = b.cC := rfl

theorem BaseCount.get_two (b : BaseCount) : b.get 2 = b.cG := rfl

theorem BaseCount.get_three (b : BaseCount) : b.get 3 = b.cT := rfl

theorem finRange_four : List.finRange 4 = [0, 1, 2, 3] := rfl

set_option maxHeartbeats 3200000 in
theorem selectLoop_char (a c g t : Nat) :
    (List.finRange 4).foldl (selectStep ⟨a, c, g, t⟩) (-1, 0, 0) =
      ((if a = 0 ∧ c = 0 ∧ g = 0 ∧ t = 0 then (-1 : Int)
          else (winnerIdx ⟨a, c, g, t⟩ : Int)),
        bestTally ⟨a, c, g, t⟩,
        runnerUpBeforeMax ⟨a, c, g, t⟩) := by
  have hw : winnerIdx ⟨a, c, g, t⟩ =
      (if c ≤ a ∧ g ≤ a ∧ t ≤ a then 0
        else if g ≤ c ∧ t ≤ c then 1 else if t ≤ g then 2 else 3 : Nat) := rfl
  have hb : bestTally ⟨a, c, g, t⟩ =
      (if c ≤ a ∧ g ≤ a ∧ t ≤ a then a
        else if g ≤ c ∧ t ≤ c then c else if t ≤ g then g else t) := rfl
  have hr : runnerUpBeforeMax ⟨a, c, g, t⟩ =
      (if c ≤ a ∧ g ≤ a ∧ t ≤ a then 0
        else if g ≤ c ∧ t ≤ c then a
        else if t ≤ g then (if a ≤ c then c else a)
        else (if a ≤ c then (if c ≤ g then g else c)
              else (if a ≤ g then g else a))) := rfl
  rw [finRange_four]
  simp only [List.foldl]
  rw [hw, hb, hr]
  by_cases h0 : 0 < a
  · -- a improves the running best
    rw [show selectStep ⟨a, c, g, t⟩ ((-1 : Int), 0, 0) 0 = ((0 : Int), a, 0) from if_pos h0]
    by_cases h1 : a < c
    · -- c improves the running best
      rw [show selectStep ⟨a, c, g, t⟩ ((0 : Int), a, 0) 1 = ((1 : Int), c, a) from if_pos h1]
      by_cases h2 : c < g
      · -- g improves the running best
        rw [show selectStep ⟨a, c, g, t⟩ ((1 : Int), c, a) 2 = ((2 : Int), g, c) from if_pos h2]
        by_cases h3 : g < t
        · -- t improves the running best
          rw [show selectStep ⟨a, c, g, t⟩ ((2 : Int), g, c) 3 = ((3 : Int), t, g) from if_pos h3]
          simp only [Prod.mk.injEq]
          split_ifs <;> omega
        · -- t does not improve the running best
          rw [show selectStep ⟨a, c, g, t⟩ ((2 : Int), g, c) 3 = ((2 : Int), g, c) from if_neg h3]
          simp only [Prod.mk.injEq]
          split_ifs <;> omega
      · -- g does not improve the running best
        rw [show selectStep ⟨a, c, g, t⟩ ((1 : Int), c, a) 2 = ((1 : Int), c, a) from if_neg h2]
        by_cases h3 : c < t
        · -- t improves the running best
          rw [show selectStep ⟨a, c, g, t⟩ ((1 : Int), c, a) 3 = ((3 : Int), t, c) from if_pos h3]
          simp only [Prod.mk.injEq]
          split_ifs <;> omega
        · -- t does not improve the running best
          rw [show selectStep ⟨a, c, g, t⟩ ((1 : Int), c, a) 3 = ((1 : Int), c, a) from if_neg h3]
          simp only [Prod.mk.injEq]
          split_ifs <;> omega
    · -- c does not improve the running best
      rw [show selectStep ⟨a, c, g, t⟩ ((0 : Int), a, 0) 1 = ((0 : Int), a, 0) from if_neg h1]
      by_cases h2 : a < g
      · -- g improves the running best
        rw [show selectStep ⟨a, c, g, t⟩ ((0 : Int), a, 0) 2 = ((2 : Int), g, a) from if_pos h2]
        by_cases h3 : g < t
        · -- t improves the running best
          rw [show selectStep ⟨a, c, g, t⟩ ((2 : Int), g, a) 3 = ((3 : Int), t, g) from if_pos h3]
          simp only [Prod.mk.injEq]
          split_ifs <;> omega
        · -- t does not improve the running best
          rw [show selectStep ⟨a, c, g, t⟩ ((2 : Int), g, a) 3 = ((2 : Int), g, a) from if_neg h3]
          simp only [Prod.mk.injEq]
          split_ifs <;> omega
      · -- g does not improve the running best
        rw [show selectStep ⟨a, c, g, t⟩ ((0 : Int), a, 0) 2 = ((0 : Int), a, 0) from if_neg h2]
        by_cases h3 : a < t
        · -- t improves the running best
          rw [show selectStep ⟨a, c, g, t⟩ ((0 : Int), a, 0) 3 = ((3 : Int), t, a) from if_pos h3]
          simp only [Prod.mk.injEq]
          split_ifs <;> omega
        · -- t does not improve the running best
          rw [show selectStep ⟨a, c, g, t⟩ ((0 : Int), a, 0) 3 = ((0 : Int), a, 0) from if_neg h3]
          simp only [Prod.mk.injEq]
          split_ifs <;> omega
  · -- a does not improve the running best
    rw [show selectStep ⟨a, c, g, t⟩ ((-1 : Int), 0, 0) 0 = ((-1 : Int), 0, 0) from if_neg h0]
    by_cases h1 : 0 < c
    · -- c improves the running best
      rw [show selectStep ⟨a, c, g, t⟩ ((-1 : Int), 0, 0) 1 = ((1 : Int), c, 0) from if_pos h1]
      by_cases h2 : c < g
      · -- g improves the running best
        rw [show selectStep ⟨a, c, g, t⟩ ((1 : Int), c, 0) 2 = ((2 : Int), g, c) from if_pos h2]
        by_cases h3 : g < t
        · -- t improves the running best
          rw [show selectStep ⟨a, c, g, t⟩ ((2 : Int), g, c) 3 = ((3 : Int), t, g) from if_pos h3]
          simp only [Prod.mk.injEq]
          split_ifs <;> omega
        · -- t does not improve the running best
          rw [show selectStep ⟨a, c, g, t⟩ ((2 : Int), g, c) 3 = ((2 : Int), g, c) from if_neg h3]
          simp only [Prod.mk.injEq]
          split_ifs <;> omega
      · -- g does not improve the running best
        rw [show selectStep ⟨a, c, g, t⟩ ((1 : Int), c, 0) 2 = ((1 : Int), c, 0) from if_neg h2]
        by_cases h3 : c < t
        · -- t improves the running best
          rw [show selectStep ⟨a, c, g, t⟩ ((1 : Int), c, 0) 3 = ((3 : Int), t, c) from if_pos h3]
          simp only [Prod.mk.injEq]
          split_ifs <;> omega
        · -- t does not improve the running best
          rw [show selectStep ⟨a, c, g, t⟩ ((1 : Int), c, 0) 3 = ((1 : Int), c, 0) from if_neg h3]
          simp only [Prod.mk.injEq]
          split_ifs <;> omega
    · -- c does not improve the running best
      rw [show selectStep ⟨a, c, g, t⟩ ((-1 : Int), 0, 0) 1 = ((-1 : Int), 0, 0) from if_neg h1]
      by_cases h2 : 0 < g
      · -- g improves the running best
        rw [show selectStep ⟨a, c, g, t⟩ ((-1 : Int), 0, 0) 2 = ((2 : Int), g, 0) from if_pos h2]
        by_cases h3 : g < t
        · -- t improves the running best
          rw [show selectStep ⟨a, c, g, t⟩ ((2 : Int), g, 0) 3 = ((3 : Int), t, g) from if_pos h3]
          simp only [Prod.mk.injEq]
          split_ifs <;> omega
        · -- t does not improve the running best
          rw [show selectStep ⟨a, c, g, t⟩ ((2 : Int), g, 0) 3 = ((2 : Int), g, 0) from if_neg h3]
          simp only [Prod.mk.injEq]
          split_ifs <;> omega
      · -- g does not improve the running best
        rw [show selectStep ⟨a, c, g, t⟩ ((-1 : Int), 0, 0) 2 = ((-1 : Int), 0, 0) from if_neg h2]
        by_cases h3 : 0 < t
        · -- t improves the running best
          rw [show selectStep ⟨a, c, g, t⟩ ((-1 : Int), 0, 0) 3 = ((3 : Int), t, 0) from if_pos h3]
          simp only [Prod.mk.injEq]
          split_ifs <;> omega
        · -- t does not improve the running best
          rw [show selectStep ⟨a, c, g, t⟩ ((-1 : Int), 0, 0) 3 = ((-1 : Int), 0, 0) from if_neg h3]
          simp only [Prod.mk.injEq]
          split_ifs <;> omega

theorem selectBase_eq (bc : BaseCount) (sb ss : Nat) :
    selectBase bc sb ss =
      (if bc.sum = 0 then 'N' else codeToBase (winnerIdx bc),
       sb + bestTally bc, ss + runnerUpBeforeMax bc) := by
  obtain ⟨a, c, g, t⟩ := bc
  unfold selectBase
  rw [selectLoop_char]
  unfold selectFinish
  have hsum : BaseCount.sum ⟨a, c, g, t⟩ = a + c + g + t := rfl
  simp only [Prod.mk.injEq, and_true]
  by_cases hz : a = 0 ∧ c = 0 ∧ g = 0 ∧ t = 0
  · rw [if_pos hz, if_pos (show BaseCount.sum ⟨a, c, g, t⟩ = 0 by rw [hsum]; omega)]
    simp
  · rw [if_neg hz, if_neg (show ¬ BaseCount.sum ⟨a, c, g, t⟩ = 0 by rw [hsum]; omega)]
    rw [if_neg (show ¬ ((winnerIdx ⟨a, c, g, t⟩ : Int)) = -1 by omega)]
    rw [Int.toNat_natCast]

/-- C1: FALSE as stated.  At the exact-tie table with A = 5 and T = 5 the
source's scanning loop never updates `secondCount` (the comparison is
strict), so the runner-up value returned is 0 while the counter with the
second-highest tally has value 5; the position contributes 5 to the running
best total and 0 — not 5 — to the running second total. -/
theorem C1_counterexample :
    (selectBase ⟨5, 0, 0, 5⟩ 0 0).2.2 ≠ secondHighestTally ⟨5, 0, 0, 5⟩ ∧
    selectBase ⟨5, 0, 0, 5⟩ 0 0 = ('A', 5, 0) := by
  decide

/-- C1 (amended): for every Base-Count table, the runner-up value returned
by `selectBase` is the largest tally among the counters strictly preceding
the first counter that attains the maximum tally (0 when the maximum is
attained by counter A); in particular the A=5/T=5 tie contributes 5 to the
running best total and 0 to the running second total. -/
theorem C1_amended (bc : BaseCount) (sb ss : Nat) :
    (selectBase bc sb ss).2.2 = ss + runnerUpBeforeMax bc := by
  rw [selectBase_eq]

/-- C7: for every Base-Count table with at least one vote, the winning base
returned by `selectBase` is the symbol with the strictly highest count, and
on a tie for the highest count the symbol with the lowest code (ascending
A < C < G < T order) wins: the result is `codeToBase` of the first counter
attaining the maximum tally. -/
theorem C7_winner_first_argmax (bc : BaseCount) (sb ss : Nat)
    (h : 0 < bc.sum) :
    (selectBase bc sb ss).1 = codeToBase (winnerIdx bc) := by
  rw [selectBase_eq]
  simp only [Prod.fst]
  rw [if_neg (by omega)]

/-- Witness for C7 at the tie table A=5, T=5: 'A' wins. -/
theorem C7_winner_first_argmax_witness :
    0 < BaseCount.sum ⟨5, 0, 0, 5⟩ ∧
    (selectBase ⟨5, 0, 0, 5⟩ 0 0).1 = codeToBase (winnerIdx ⟨5, 0, 0, 5⟩) :=
  ⟨by decide, C7_winner_first_argmax ⟨5, 0, 0, 5⟩ 0 0 (by decide)⟩

/-- C8: for every Base-Count table whose four counters are all zero (zero
total depth), `selectBase` returns the undetermined marker 'N' and adds 0
to both the running best total and the running second total. -/
theorem C8_zero_depth (bc : BaseCount) (sb ss : Nat) (h : bc.sum = 0) :
    selectBase bc sb ss = ('N', sb, ss) := by
  rw [selectBase_eq, if_pos h]
  obtain ⟨a, c, g, t⟩ := bc
  have hall : a = 0 ∧ c = 0 ∧ g = 0 ∧ t = 0 := by
    have hsum : BaseCount.sum ⟨a, c, g, t⟩ = a + c + g + t := rfl
    rw [hsum] at h; omega
  obtain ⟨rfl, rfl, rfl, rfl⟩ := hall
  rfl

/-- Witness for C8 at the all-zero table with running totals 2 and 3. -/
theorem C8_zero_depth_witness :
    BaseCount.sum ⟨0, 0, 0, 0⟩ = 0 ∧
    selectBase ⟨0, 0, 0, 0⟩ 2 3 = ('N', 2, 3) :=
  ⟨rfl, C8_zero_depth ⟨0, 0, 0, 0⟩ 2 3 rfl⟩

/-! ## Lemmas about the accumulation pass -/

theorem incrList_length (l : List BaseCount) (n : Nat) (b : Fin 4) :
    (incrList l n b).length = l.length := by
  induction l generalizing n with
  | nil => rfl
  | cons c cs ih =>
    cases n with
    | zero => rfl
    | succ m => simp only [incrList, List.length_cons, ih]

theorem mem_intRange (x lo hi : Int) :
    x ∈ intRange lo hi ↔ lo ≤ x ∧ x < hi := by
  unfold intRange
  constructor
  · intro hmem
    obtain ⟨k, hk, hkx⟩ := List.mem_map.mp hmem
    have hk2 := Int.lt_toNat.mp (List.mem_range.mp hk)
    omega
  · rintro ⟨h1, h2⟩
    refine List.mem_map.mpr
      ⟨(x - lo).toNat, List.mem_range.mpr (Int.lt_toNat.mpr ?_), ?_⟩
    · rw [Int.toNat_of_nonneg (by omega)]
      omega
    · rw [Int.toNat_of_nonneg (by omega)]
      omega

theorem pileLoop_none (s : List Char) (cs rs : Int) (counts : List BaseCount)
    (xs : List Int)
    (h : ∃ x ∈ xs, ¬(0 ≤ cs - rs + x ∧ cs - rs + x < (counts.length : Int))) :
    pileLoop s cs rs counts xs = none := by
  induction xs generalizing counts with
  | nil => simp at h
  | cons x0 xs ih =>
    obtain ⟨x, hx, hbad⟩ := h
    unfold pileLoop
    by_cases hc : 0 ≤ cs - rs + x0 ∧ cs - rs + x0 < (counts.length : Int)
    · rw [if_pos hc]
      apply ih
      refine ⟨x, ?_, ?_⟩
      · rcases List.mem_cons.mp hx with h1 | h1
        · exact absurd hc (h1 ▸ hbad)
        · exact h1
      · rw [incrList_length]
        exact hbad
    · rw [if_neg hc]

/-- C5: during accumulation, an alignment placement one of whose in-window
destination offsets `contig_start - read_start + x` reaches or exceeds the
pileup table length makes `processAlign` return `none` — the fatal abort of
the assertions in lines 233-246 — and in particular produces no final
state, so no increment is ever applied to a clamped or wrapped position. -/
theorem C5_oob_aborts (csToNt : Bool)
    (contigs : List (String × ContigCount)) (seq : List Char)
    (al : Alignment) (contig : ContigCount)
    (hfind : findEntry contigs (effAlign al).contig = some contig)
    (hx : ∃ x : Int,
      (readWindow csToNt (contig.counts.length : Int) (effAlign al)).1 ≤ x ∧
      x < (readWindow csToNt (contig.counts.length : Int) (effAlign al)).2 ∧
      (contig.counts.length : Int) ≤
        (effAlign al).contig_start_pos - (effAlign al).read_start_pos + x) :
    processAlign csToNt contigs seq al = none := by
  obtain ⟨x, hx1, hx2, hx3⟩ := hx
  simp only [processAlign]
  rw [hfind]
  dsimp only
  by_cases hA : (contig.counts.length : Int) ≥
      (effAlign al).contig_start_pos - (effAlign al).read_start_pos +
        (readWindow csToNt (contig.counts.length : Int) (effAlign al)).2 - 1 ∧
      (readWindow csToNt (contig.counts.length : Int) (effAlign al)).2 ≤
        (seq.length : Int) ∧
      0 ≤ (readWindow csToNt (contig.counts.length : Int) (effAlign al)).1
  · rw [if_pos hA]
    rw [pileLoop_none]
    · rfl
    · refine ⟨x, (mem_intRange x _ _).mpr ⟨hx1, hx2⟩, fun hcon => ?_⟩
      omega
  · rw [if_neg hA]

/-- Witness for C5: a colour-space-mode placement aligning two colours of a
three-base read at the start of a table of length 2; its window is
[0, 3) and the destination offset of x = 2 equals the table length, so the
run aborts. -/
theorem C5_oob_aborts_witness :
    (findEntry [("k", ⟨['A', 'A'], 0, "", [⟨0, 0, 0, 0⟩, ⟨0, 0, 0, 0⟩]⟩)]
        (effAlign ⟨"k", 0, 0, 2, 3, false⟩).contig =
      some ⟨['A', 'A'], 0, "", [⟨0, 0, 0, 0⟩, ⟨0, 0, 0, 0⟩]⟩) ∧
    processAlign true [("k", ⟨['A', 'A'], 0, "", [⟨0, 0, 0, 0⟩, ⟨0, 0, 0, 0⟩]⟩)]
      ['A', 'A', 'A'] ⟨"k", 0, 0, 2, 3, false⟩ = none :=
  ⟨by decide,
   C5_oob_aborts true
     [("k", ⟨['A', 'A'], 0, "", [⟨0, 0, 0, 0⟩, ⟨0, 0, 0, 0⟩]⟩)]
     ['A', 'A', 'A'] ⟨"k", 0, 0, 2, 3, false⟩
     ⟨['A', 'A'], 0, "", [⟨0, 0, 0, 0⟩, ⟨0, 0, 0, 0⟩]⟩ (by decide)
     ⟨2, by decide, by decide, by decide⟩⟩

/-- C2: FALSE as stated.  In colour-space-to-nucleotide mode the source
only checks that SOME placement is anchored at read offset 0 (lines
182-193); once one is, EVERY placement of the read is folded into the
pileup, including those with non-zero read-start offsets.  Here the read
has an anchored placement and a second placement with read start 1;
processing the read differs from processing only its anchored placements
(positions 3 and 4 of the table receive votes only the non-anchored
placement can cast). -/
theorem C2_counterexample :
    processRead true
        [("k", ⟨['A', 'A', 'A', 'A', 'A', 'A'], 0, "",
          List.replicate 6 ⟨0, 0, 0, 0⟩⟩)]
        ⟨"r", ['A', 'C', 'G', 'T'],
          [⟨"k", 0, 0, 2, 4, false⟩, ⟨"k", 3, 1, 1, 4, false⟩]⟩ ≠
      processReadOnlyAnchored true
        [("k", ⟨['A', 'A', 'A', 'A', 'A', 'A'], 0, "",
          List.replicate 6 ⟨0, 0, 0, 0⟩⟩)]
        ⟨"r", ['A', 'C', 'G', 'T'],
          [⟨"k", 0, 0, 2, 4, false⟩, ⟨"k", 3, 1, 1, 4, false⟩]⟩ := by
  decide

/-- C2 (amended): in colour-space-to-nucleotide mode, a read none of whose
placements has read-start offset 0 is skipped entirely; but when at least
one placement is anchored at offset 0, ALL placements of the read — also
those with non-zero read-start offsets — are folded into the pileup. -/
theorem C2_amended (contigs : List (String × ContigCount)) (r : Read) :
    ((∀ al ∈ r.alignments, al.read_start_pos ≠ 0) →
      processRead true contigs r = some contigs) ∧
    ((∃ al ∈ r.alignments, al.read_start_pos = 0) →
      processRead true contigs r = accumAligns true contigs r.seq r.alignments) := by
  constructor
  · intro h
    have hany : r.alignments.any (fun al => al.read_start_pos == 0) = false := by
      by_contra hc
      rw [Bool.not_eq_false, List.any_eq_true] at hc
      obtain ⟨al, hmem, hal⟩ := hc
      exact h al hmem (beq_iff_eq.mp hal)
    unfold processRead
    rw [hany]
    simp
  · rintro ⟨al, hmem, hal⟩
    have hany : r.alignments.any (fun al => al.read_start_pos == 0) = true :=
      List.any_eq_true.mpr ⟨al, hmem, beq_iff_eq.mpr hal⟩
    unfold processRead
    rw [hany]
    simp

/-- Witness for C2 (amended), first half: a read whose only placement has
read start 1 is skipped, leaving the registry unchanged. -/
theorem C2_amended_witness :
    (∀ al ∈ ([⟨"k", 0, 1, 1, 4, false⟩] : List Alignment),
      al.read_start_pos ≠ 0) ∧
    processRead true
        [("k", ⟨['A', 'A'], 0, "", [⟨0, 0, 0, 0⟩, ⟨0, 0, 0, 0⟩]⟩)]
        ⟨"r", ['A', 'C', 'G', 'T'], [⟨"k", 0, 1, 1, 4, false⟩]⟩ =
      some [("k", ⟨['A', 'A'], 0, "", [⟨0, 0, 0, 0⟩, ⟨0, 0, 0, 0⟩]⟩)] :=
  ⟨by decide,
   (C2_amended [("k", ⟨['A', 'A'], 0, "", [⟨0, 0, 0, 0⟩, ⟨0, 0, 0, 0⟩]⟩)]
      ⟨"r", ['A', 'C', 'G', 'T'], [⟨"k", 0, 1, 1, 4, false⟩]⟩).1 (by decide)⟩

/-- C3: the claim fails on the code (and the code contradicts its own
bounds assertion downstream).  In a run that converts colour-space input to
nucleotide output, `opt::csToNt` only becomes true while the FIRST record
is processed, AFTER that record's table has already been sized (line 117
precedes lines 120-129), so the first contig's table has length
`sequence.length()` instead of the claimed `sequence.length() + 1`: here
the colour-space contig "0" of length 4 gets a table of length 4 while the
later contig "1" of length 3 gets the intended 3 + 1 = 4. -/
theorem C3_first_contig_mis_sized :
    (readContigs false
        [⟨"0", ['0', '1', '2', '3'], 0, ""⟩, ⟨"1", ['1', '2', '3'], 0, ""⟩]).map
        (fun st => (st.csToNt,
          (findEntry st.contigs "0").map (fun cc => cc.counts.length),
          (findEntry st.contigs "1").map (fun cc => cc.counts.length))) =
      some (true, some 4, some 4) := by
  decide

/-- C4: FALSE as stated.  A below-threshold contig (one position, votes
A = 1 and C = 2, agreement 2/3) in colour-space-to-nucleotide mode at
verbosity 1 is NOT retained (nothing is written) and NOT passed through
Unknown-Base Repair — only the warning is real; and in nucleotide mode the
contig is dropped with NO warning at all. -/
theorem C4_counterexample :
    (consensusContig true 1 ⟨['A'], 0, "", [⟨1, 2, 0, 0⟩]⟩).written = false ∧
    (consensusContig true 1 ⟨['A'], 0, "", [⟨1, 2, 0, 0⟩]⟩).repaired = false ∧
    (consensusContig true 1 ⟨['A'], 0, "", [⟨1, 2, 0, 0⟩]⟩).lowAgreementWarned
      = true ∧
    (consensusContig false 1 ⟨['A'], 0, "", [⟨1, 2, 0, 0⟩]⟩).lowAgreementWarned
      = false ∧
    (consensusContig false 1 ⟨['A'], 0, "", [⟨1, 2, 0, 0⟩]⟩).omittedWarned
      = false := by
  decide

/-- C4 (amended): a contig with at least one determined base that fails the
agreement test is written in NEITHER mode and never repaired; the only
mode difference is the warning: colour-space mode warns at verbosity ≥ 1,
nucleotide mode is silent. -/
theorem C4_amended (csToNt : Bool) (verbose : Nat) (contig : ContigCount)
    (hdet : (callLoop contig.counts contig.seq 0 0).1.any isACGTupper = true)
    (hrej : acceptAgreement (callLoop contig.counts contig.seq 0 0).2.1
      (callLoop contig.counts contig.seq 0 0).2.2 = false) :
    consensusContig csToNt verbose contig =
      { written := false, repaired := false,
        lowAgreementWarned := csToNt && decide (verbose > 0),
        omittedWarned := false, output := none } := by
  unfold consensusContig
  rcases hc : callLoop contig.counts contig.seq 0 0 with ⟨outSeq, sb, ss⟩
  rw [hc] at hdet hrej
  dsimp only at hdet hrej ⊢
  rw [if_pos hdet, if_neg (by simp [hrej])]

/-- Witness for C4 (amended) at the 2/3-agreement contig in colour-space
mode with verbosity 1. -/
theorem C4_amended_witness :
    ((callLoop [⟨1, 2, 0, 0⟩] ['A'] 0 0).1.any isACGTupper = true) ∧
    (acceptAgreement (callLoop [⟨1, 2, 0, 0⟩] ['A'] 0 0).2.1
      (callLoop [⟨1, 2, 0, 0⟩] ['A'] 0 0).2.2 = false) ∧
    consensusContig true 1 ⟨['A'], 0, "", [⟨1, 2, 0, 0⟩]⟩ =
      ⟨false, false, true, false, none⟩ :=
  ⟨by decide, by decide,
   C4_amended true 1 ⟨['A'], 0, "", [⟨1, 2, 0, 0⟩]⟩ (by decide) (by decide)⟩

/-- C6: the claim is right about the intent but the code rejects the exact
boundary.  This contig's single position votes A = 1, T = 9: winner 'T',
running totals sumBest = 9 and sumSecond = 1, percent agreement exactly
9/10.  The binary32 quotient 9/10.0f rounds DOWN to 15099494/2^24 =
0.89999997…, which compares below the double literal `.9`, so
`percentAgreement < .9` holds and the contig is dropped — refuting the
inclusive-threshold claim at its stated boundary. -/
theorem C6_boundary_rejected :
    (callLoop [⟨1, 0, 0, 9⟩] ['A'] 0 0).2 = (9, 1) ∧
    roundScaled 9 10 = 15099494 ∧
    10 * roundScaled 9 10 < 9 * 2 ^ 24 ∧
    consensusContig false 0 ⟨['A'], 0, "", [⟨1, 0, 0, 9⟩]⟩ =
      ⟨false, false, false, false, none⟩ := by
  decide

/-! ## Lemmas for the lowercase-contig claim -/

theorem codeToBase_mem (n : Nat) :
    codeToBase n ∈ (['A', 'C', 'G', 'T', 'N'] : List Char) := by
  unfold codeToBase
  split_ifs <;> simp

theorem selectBase_char_mem (bc : BaseCount) (sb ss : Nat) :
    (selectBase bc sb ss).1 ∈ (['A', 'C', 'G', 'T', 'N'] : List Char) := by
  rw [selectBase_eq]
  by_cases h : bc.sum = 0
  · simp [h]
  · simp only [if_neg h]
    exact codeToBase_mem (winnerIdx bc)

theorem toLower_not_upper :
    ∀ ch ∈ (['A', 'C', 'G', 'T', 'N'] : List Char),
      isACGTupper (toLowerChar ch) = false := by
  decide

theorem callLoop_all_lower (counts : List BaseCount) (refs : List Char)
    (sb ss : Nat) (hlen : counts.length ≤ refs.length)
    (hlow : ∀ ch ∈ refs, isLowerChar ch = true) :
    (callLoop counts refs sb ss).1.any isACGTupper = false := by
  induction counts generalizing refs sb ss with
  | nil => rfl
  | cons cnt cnts ih =>
    cases refs with
    | nil => simp at hlen
    | cons rc refs2 =>
      unfold callLoop
      rcases hsel : selectBase cnt sb ss with ⟨ch, sb2, ss2⟩
      have hmem : ch ∈ (['A', 'C', 'G', 'T', 'N'] : List Char) := by
        have := selectBase_char_mem cnt sb ss
        rw [hsel] at this
        exact this
      have hrc : isLowerChar rc = true :=
        hlow rc (List.mem_cons_self rc refs2)
      dsimp only
      rw [show List.drop 1 (rc :: refs2) = refs2 from rfl]
      rcases hrec : callLoop cnts refs2 sb2 ss2 with ⟨rest, sbf, ssf⟩
      have hrest : rest.any isACGTupper = false := by
        have := ih refs2 sb2 ss2 (Nat.le_of_succ_le_succ hlen)
          (fun chx hx => hlow chx (List.mem_cons_of_mem rc hx))
        rw [hrec] at this
        exact this
      try rw [hrec]
      simp [hrc, hrest, toLower_not_upper ch hmem]

/-- C10: the "at least one determined base" test of line 375 searches the
called string only for upper-case A/C/G/T, and line 366 lower-cases every
called base whose draft character is lower case; a contig whose draft
characters are all lower case (at every pileup position) is therefore
classified as containing no determined base: it is never written, never
repaired, and only the "not supported by a complete read" warning is
printed, exactly when verbosity is at least 1. -/
theorem C10_lowercase_contig_omitted (csToNt : Bool) (verbose : Nat)
    (contig : ContigCount)
    (hlen : contig.counts.length ≤ contig.seq.length)
    (hlow : ∀ ch ∈ contig.seq, isLowerChar ch = true) :
    consensusContig csToNt verbose contig =
      { written := false, repaired := false, lowAgreementWarned := false,
        omittedWarned := decide (verbose > 0), output := none } := by
  unfold consensusContig
  have hany := callLoop_all_lower contig.counts contig.seq 0 0 hlen hlow
  rcases hc : callLoop contig.counts contig.seq 0 0 with ⟨outSeq, sb, ss⟩
  rw [hc] at hany
  dsimp only at hany ⊢
  rw [if_neg (by simp [hany])]

/-- Witness for C10 at a fully lower-case one-base contig with 9 'A' votes
and verbosity 1: omitted with the warning, nothing written or repaired. -/
theorem C10_lowercase_contig_omitted_witness :
    (ContigCount.mk ['a'] 0 "" [⟨9, 0, 0, 0⟩]).counts.length ≤
      (ContigCount.mk ['a'] 0 "" [⟨9, 0, 0, 0⟩]).seq.length ∧
    consensusContig false 1 ⟨['a'], 0, "", [⟨9, 0, 0, 0⟩]⟩ =
      ⟨false, false, false, true, none⟩ :=
  ⟨by decide,
   C10_lowercase_contig_omitted false 1 ⟨['a'], 0, "", [⟨9, 0, 0, 0⟩]⟩
     (by decide) (by decide)⟩

/-! ## Order-independence of accumulation (claim C9) -/

theorem BaseCount.inc_comm (b : BaseCount) (i j : Fin 4) :
    (b.inc i).inc j = (b.inc j).inc i := by
  fin_cases i <;> fin_cases j <;> rfl

theorem incrList_comm (l : List BaseCount) (n1 n2 : Nat) (b1 b2 : Fin 4) :
    incrList (incrList l n1 b1) n2 b2 = incrList (incrList l n2 b2) n1 b1 := by
  induction l generalizing n1 n2 with
  | nil => rfl
  | cons c cs ih =>
    cases n1 with
    | zero =>
      cases n2 with
      | zero => simp only [incrList, BaseCount.inc_comm]
      | succ m2 => rfl
    | succ m1 =>
      cases n2 with
      | zero => rfl
      | succ m2 => simp only [incrList, List.cons.injEq, true_and]; exact ih m1 m2

theorem applyEvent_comm (c : List (String × ContigCount)) (e1 e2 : Event) :
    applyEvent (applyEvent c e1) e2 = applyEvent (applyEvent c e2) e1 := by
  induction c with
  | nil => rfl
  | cons p rest ih =>
    rcases p with ⟨k, v⟩
    by_cases h1 : k = e1.1 <;> by_cases h2 : k = e2.1
    · simp only [applyEvent, if_pos h1, if_pos h2]
      rw [incrList_comm]
    · simp only [applyEvent, if_pos h1, if_neg h2]
    · simp only [applyEvent, if_neg h1, if_pos h2]
    · simp only [applyEvent, if_neg h1, if_neg h2, ih]

theorem shape_applyEvent (c : List (String × ContigCount)) (e : Event) :
    shape (applyEvent c e) = shape c := by
  induction c with
  | nil => rfl
  | cons p rest ih =>
    rcases p with ⟨k, v⟩
    by_cases h : k = e.1
    · simp only [applyEvent, h, ite_true, shape, List.map_cons, incrList_length]
    · simp only [applyEvent, h, ite_false, shape, List.map_cons]
      simpa [shape] using ih

theorem shape_foldl_applyEvent (E : List Event)
    (c : List (String × ContigCount)) :
    shape (E.foldl applyEvent c) = shape c := by
  induction E generalizing c with
  | nil => rfl
  | cons e E ih => simp only [List.foldl_cons, ih, shape_applyEvent]

theorem applyEvent_foldl_comm (E : List Event)
    (c : List (String × ContigCount)) (e : Event) :
    applyEvent (E.foldl applyEvent c) e = E.foldl applyEvent (applyEvent c e) := by
  induction E generalizing c with
  | nil => rfl
  | cons e2 E ih =>
    simp only [List.foldl_cons]
    rw [ih, applyEvent_comm]

theorem foldl_applyEvent_comm (E1 E2 : List Event)
    (c : List (String × ContigCount)) :
    E2.foldl applyEvent (E1.foldl applyEvent c) =
      E1.foldl applyEvent (E2.foldl applyEvent c) := by
  induction E1 generalizing c with
  | nil => rfl
  | cons e E1 ih =>
    simp only [List.foldl_cons]
    rw [ih, ← applyEvent_foldl_comm]

theorem findSize_shape (c : List (String × ContigCount)) (cid : String) :
    findSize (shape c) cid = (findEntry c cid).map (fun v => v.counts.length) := by
  induction c with
  | nil => rfl
  | cons p rest ih =>
    rcases p with ⟨k, v⟩
    by_cases h : k = cid
    · simp only [shape, List.map_cons, findSize, findEntry, if_pos h]
      rfl
    · simp only [shape, List.map_cons, findSize, findEntry, if_neg h]
      simpa [shape] using ih

theorem pileLoop_plan (s : List Char) (cs rs : Int) (xs : List Int)
    (counts : List BaseCount) :
    pileLoop s cs rs counts xs =
      (planLoop cs rs counts.length s xs).map (applyIncs counts) := by
  induction xs generalizing counts with
  | nil => rfl
  | cons x xs ih =>
    by_cases hc : 0 ≤ cs - rs + x ∧ cs - rs + x < (counts.length : Int)
    · simp only [pileLoop, planLoop, if_pos hc]
      rw [ih]
      rw [show (incrList counts (cs - rs + x).toNat
            (baseToCode (s.getD x.toNat 'N'))).length = counts.length
          from incrList_length counts _ _]
      cases hpl : planLoop cs rs counts.length s xs with
      | none => rfl
      | some es => rfl
    · simp only [pileLoop, planLoop, if_neg hc]
      rfl

theorem setCounts_findEntry_self (c : List (String × ContigCount))
    (cid : String) (contig : ContigCount)
    (hfind : findEntry c cid = some contig) :
    setCounts c cid contig.counts = c := by
  induction c with
  | nil => simp [findEntry] at hfind
  | cons p rest ih =>
    rcases p with ⟨k, v⟩
    by_cases h : k = cid
    · simp only [findEntry, if_pos h, Option.some.injEq] at hfind
      subst hfind
      simp only [setCounts, if_pos h]
    · simp only [findEntry, if_neg h] at hfind
      simp only [setCounts, if_neg h, ih hfind]

theorem findEntry_applyEvent_same (c : List (String × ContigCount))
    (cid : String) (contig : ContigCount) (p : Nat × Fin 4)
    (hfind : findEntry c cid = some contig) :
    findEntry (applyEvent c (cid, p.1, p.2)) cid =
      some { contig with counts := incrList contig.counts p.1 p.2 } := by
  induction c with
  | nil => simp [findEntry] at hfind
  | cons q rest ih =>
    rcases q with ⟨k, v⟩
    by_cases h : k = cid
    · simp only [findEntry, if_pos h, Option.some.injEq] at hfind
      subst hfind
      simp only [applyEvent, if_pos h, findEntry]
    · simp only [findEntry, if_neg h] at hfind
      simp only [applyEvent, if_neg h, findEntry, if_neg h, ih hfind]

theorem setCounts_applyEvent_same (c : List (String × ContigCount))
    (cid : String) (p : Nat × Fin 4) (cnts : List BaseCount) :
    setCounts (applyEvent c (cid, p.1, p.2)) cid cnts = setCounts c cid cnts := by
  induction c with
  | nil => rfl
  | cons q rest ih =>
    rcases q with ⟨k, v⟩
    by_cases h : k = cid
    · simp only [applyEvent, if_pos h, setCounts]
    · simp only [applyEvent, if_neg h, setCounts, ih]

theorem foldl_applyEvent_tagged (es : List (Nat × Fin 4))
    (c : List (String × ContigCount)) (cid : String) (contig : ContigCount)
    (hfind : findEntry c cid = some contig) :
    (es.map (fun e => ((cid, e.1, e.2) : Event))).foldl applyEvent c =
      setCounts c cid (applyIncs contig.counts es) := by
  induction es generalizing c contig with
  | nil =>
    simp only [List.map_nil, List.foldl_nil, applyIncs, List.foldl_nil]
    exact (setCounts_findEntry_self c cid contig hfind).symm
  | cons e es ih =>
    simp only [List.map_cons, List.foldl_cons]
    rw [ih (applyEvent c (cid, e.1, e.2))
      { contig with counts := incrList contig.counts e.1 e.2 }
      (findEntry_applyEvent_same c cid contig e hfind)]
    rw [setCounts_applyEvent_same]
    rfl

theorem processAlign_plan (csToNt : Bool)
    (contigs : List (String × ContigCount)) (seq : List Char)
    (al : Alignment) :
    processAlign csToNt contigs seq al =
      (planAlign csToNt (shape contigs) seq al).map
        (fun es => es.foldl applyEvent contigs) := by
  simp only [processAlign, planAlign]
  rw [findSize_shape]
  cases hfind : findEntry contigs (effAlign al).contig with
  | none => rfl
  | some contig =>
    dsimp only [Option.map]
    by_cases hA : (contig.counts.length : Int) ≥
        (effAlign al).contig_start_pos - (effAlign al).read_start_pos +
          (readWindow csToNt (contig.counts.length : Int) (effAlign al)).2 - 1 ∧
        (readWindow csToNt (contig.counts.length : Int) (effAlign al)).2 ≤
          (seq.length : Int) ∧
        0 ≤ (readWindow csToNt (contig.counts.length : Int) (effAlign al)).1
    · rw [if_pos hA, if_pos hA, pileLoop_plan]
      cases hpl : planLoop (effAlign al).contig_start_pos
          (effAlign al).read_start_pos contig.counts.length
          (if al.isRC then reverseComplement seq else seq)
          (intRange (readWindow csToNt (contig.counts.length : Int)
              (effAlign al)).1
            (readWindow csToNt (contig.counts.length : Int) (effAlign al)).2)
          with
      | none => rfl
      | some es =>
        dsimp only [Option.map]
        rw [foldl_applyEvent_tagged es contigs (effAlign al).contig contig hfind]
    · rw [if_neg hA, if_neg hA]

theorem accumAligns_from_none (csToNt : Bool) (seq : List Char)
    (als : List Alignment) :
    als.foldl (fun acc al => acc.bind
      (fun cs2 => processAlign csToNt cs2 seq al)) none = none := by
  induction als with
  | nil => rfl
  | cons al als ih => simpa using ih

theorem accumAligns_plan (csToNt : Bool)
    (contigs : List (String × ContigCount)) (seq : List Char)
    (als : List Alignment) :
    accumAligns csToNt contigs seq als =
      (planAligns csToNt (shape contigs) seq als).map
        (fun es => es.foldl applyEvent contigs) := by
  induction als generalizing contigs with
  | nil => rfl
  | cons al als ih =>
    simp only [accumAligns, List.foldl_cons, planAligns]
    have hstep : (some contigs).bind
        (fun cs2 => processAlign csToNt cs2 seq al) =
        processAlign csToNt contigs seq al := rfl
    rw [hstep, processAlign_plan]
    cases hpa : planAlign csToNt (shape contigs) seq al with
    | none =>
      rw [show Option.map (fun es => List.foldl applyEvent contigs es)
          (none : Option (List Event)) = none from rfl,
        accumAligns_from_none csToNt seq als]
      rfl
    | some e1 =>
      rw [show Option.map (fun es => List.foldl applyEvent contigs es)
          (some e1) = some (List.foldl applyEvent contigs e1) from rfl]
      have ih2 := ih (List.foldl applyEvent contigs e1)
      simp only [accumAligns] at ih2
      rw [ih2, shape_foldl_applyEvent]
      cases hps : planAligns csToNt (shape contigs) seq als with
      | none => rfl
      | some e2 =>
        dsimp only [Option.map, Option.bind]
        rw [List.foldl_append]

theorem processRead_plan (csToNt : Bool)
    (contigs : List (String × ContigCount)) (r : Read) :
    processRead csToNt contigs r =
      (planRead csToNt (shape contigs) r).map
        (fun es => es.foldl applyEvent contigs) := by
  unfold processRead planRead
  by_cases hg : (csToNt && !(r.alignments.any
      (fun al => al.read_start_pos == 0))) = true
  · rw [if_pos hg, if_pos hg]
    rfl
  · rw [if_neg hg, if_neg hg]
    exact accumAligns_plan csToNt contigs r.seq r.alignments

theorem processRead_step_comm (csToNt : Bool)
    (acc : Option (List (String × ContigCount))) (r1 r2 : Read) :
    (acc.bind (fun c => processRead csToNt c r1)).bind
        (fun c => processRead csToNt c r2) =
      (acc.bind (fun c => processRead csToNt c r2)).bind
        (fun c => processRead csToNt c r1) := by
  cases acc with
  | none => rfl
  | some c =>
    show (processRead csToNt c r1).bind (fun c => processRead csToNt c r2) =
      (processRead csToNt c r2).bind (fun c => processRead csToNt c r1)
    rw [processRead_plan csToNt c r1, processRead_plan csToNt c r2]
    cases hp1 : planRead csToNt (shape c) r1 with
    | none =>
      cases hp2 : planRead csToNt (shape c) r2 with
      | none => rfl
      | some E2 =>
        dsimp only [Option.map, Option.bind]
        rw [processRead_plan, shape_foldl_applyEvent, hp1]
        rfl
    | some E1 =>
      cases hp2 : planRead csToNt (shape c) r2 with
      | none =>
        dsimp only [Option.map, Option.bind]
        rw [processRead_plan, shape_foldl_applyEvent, hp2]
        rfl
      | some E2 =>
        dsimp only [Option.map, Option.bind]
        rw [processRead_plan, processRead_plan, shape_foldl_applyEvent,
          shape_foldl_applyEvent, hp1, hp2]
        dsimp only [Option.map]
        rw [foldl_applyEvent_comm]

/-- C9: accumulation is order-independent: folding a list of reads (none of
which triggers the out-of-bounds abort) into the pileup tables in any
permutation yields identical final registries — every contig's Base-Count
tables agree.  (The proof does not even need the no-abort hypothesis: an
aborting read aborts in every order, because whether a read aborts depends
only on the table lengths, which accumulation never changes.) -/
theorem C9_accumulation_order_independent (csToNt : Bool)
    (contigs : List (String × ContigCount)) (reads1 reads2 : List Read)
    (hperm : reads1.Perm reads2)
    (hnoabort : accumulate csToNt contigs reads1 ≠ none) :
    accumulate csToNt contigs reads1 = accumulate csToNt contigs reads2 := by
  unfold accumulate
  exact hperm.foldl_eq'
    (fun x _ y _ z => processRead_step_comm csToNt z x y) (some contigs)

/-- Witness for C9: two single-placement reads voting at positions 0 and 1
of a length-2 table, swapped. -/
theorem C9_accumulation_order_independent_witness :
    ([⟨"r1", ['A'], [⟨"k", 0, 0, 1, 1, false⟩]⟩,
      ⟨"r2", ['C'], [⟨"k", 1, 0, 1, 1, false⟩]⟩] : List Read).Perm
      [⟨"r2", ['C'], [⟨"k", 1, 0, 1, 1, false⟩]⟩,
       ⟨"r1", ['A'], [⟨"k", 0, 0, 1, 1, false⟩]⟩] ∧
    accumulate false [("k", ⟨['A', 'A'], 0, "", [⟨0, 0, 0, 0⟩, ⟨0, 0, 0, 0⟩]⟩)]
        [⟨"r1", ['A'], [⟨"k", 0, 0, 1, 1, false⟩]⟩,
         ⟨"r2", ['C'], [⟨"k", 1, 0, 1, 1, false⟩]⟩] ≠ none ∧
    accumulate false [("k", ⟨['A', 'A'], 0, "", [⟨0, 0, 0, 0⟩, ⟨0, 0, 0, 0⟩]⟩)]
        [⟨"r1", ['A'], [⟨"k", 0, 0, 1, 1, false⟩]⟩,
         ⟨"r2", ['C'], [⟨"k", 1, 0, 1, 1, false⟩]⟩] =
      accumulate false [("k", ⟨['A', 'A'], 0, "", [⟨0, 0, 0, 0⟩, ⟨0, 0, 0, 0⟩]⟩)]
        [⟨"r2", ['C'], [⟨"k", 1, 0, 1, 1, false⟩]⟩,
         ⟨"r1", ['A'], [⟨"k", 0, 0, 1, 1, false⟩]⟩] :=
  ⟨by decide, by decide,
   C9_accumulation_order_independent false
     [("k", ⟨['A', 'A'], 0, "", [⟨0, 0, 0, 0⟩, ⟨0, 0, 0, 0⟩]⟩)]
     [⟨"r1", ['A'], [⟨"k", 0, 0, 1, 1, false⟩]⟩,
      ⟨"r2", ['C'], [⟨"k", 1, 0, 1, 1, false⟩]⟩]
     [⟨"r2", ['C'], [⟨"k", 1, 0, 1, 1, false⟩]⟩,
      ⟨"r1", ['A'], [⟨"k", 0, 0, 1, 1, false⟩]⟩]
     (by decide) (by decide)⟩

end Consensus
